import Mathlib

/-!
Shallow embedding of the sprint-analysis core of `dev-board-v2`
(`src/index.ts`; the fullest revision is the one with spillover and
missing-estimate tracking).  Timestamps are modelled as integer epoch
milliseconds (the value of `new Date(s).getTime()` on a valid ISO string);
JavaScript objects used as person-keyed dictionaries are modelled as
association lists in insertion order (person display names are not
array-index-like keys, so ECMAScript preserves insertion order for them);
`Array.prototype.sort` with a consistent comparator is, per ECMAScript 2019+,
a stable sort, modelled by the stable `List.insertionSort`.
-/

/-- One field change inside a changelog history entry
(`JiraChangelogItem`). -/
structure FieldChange where
  field : String
  fromString : String
  toString : String
deriving DecidableEq

/-- One changelog history entry (`JiraChangelog`): an actor, a timestamp in
epoch milliseconds, and its list of field changes. -/
structure Changelog where
  author : String
  created : Int
  items : List FieldChange
deriving DecidableEq

/-- One worklog entry (`JiraWorklog`): actor, timestamp in epoch
milliseconds, elapsed seconds. -/
structure Worklog where
  author : String
  started : Int
  timeSpentSeconds : Nat
deriving DecidableEq

/-- A sprint issue (`JiraIssue`) restricted to the fields the core reads.
`histories` models `issue.changelog?.histories`: `none` when the changelog
or its histories array is absent (the JS guard
`issue.changelog && issue.changelog.histories` fails), `some []` when the
array is present but empty (an empty array is truthy in JS, so the guard
passes). `timeoriginalestimate` is `none` when the field is absent/null. -/
structure Issue where
  key : String
  status : String
  assignee : Option String
  timeoriginalestimate : Option Nat
  worklogs : Option (List Worklog)
  histories : Option (List Changelog)
deriving DecidableEq

/-- A sprint (`JiraSprint`), dates as epoch milliseconds. -/
structure Sprint where
  name : String
  startDate : Int
  endDate : Int
deriving DecidableEq

/-- Order the changelog comparator
`(a, b) => new Date(a.created).getTime() - new Date(b.created).getTime()`
induces: ascending by timestamp. -/
def createdLE (a b : Changelog) : Prop := a.created ≤ b.created

instance : DecidableRel createdLE := fun a b => Int.decLe a.created b.created

instance : IsTotal Changelog createdLE := ⟨fun a b => Int.le_total a.created b.created⟩

instance : IsTrans Changelog createdLE := ⟨fun _ _ _ h1 h2 => le_trans h1 h2⟩

/-- The sort the core applies to every changelog before matching:
`histories.sort((a, b) => ...)` ascending by timestamp.  ECMAScript 2019+
mandates a stable sort for a consistent comparator, modelled here by the
stable `List.insertionSort`.  JS `.sort` mutates the array in place; the
callers below thread the sorted list explicitly. -/
def sortHistories (hs : List Changelog) : List Changelog :=
  List.insertionSort createdLE hs

/-- Net effect of the per-issue classifier passes on the issue itself: the
in-place `.sort` replaces the histories array by its stably sorted
permutation (re-sorting an already sorted array is the identity, so one
replacement captures all four passes). -/
def runClassifiersOnIssue (issue : Issue) : Issue :=
  match issue.histories with
  | none => issue
  | some hs => { issue with histories := some (sortHistories hs) }

/-- Insertion-ordered get-or-insert-default update of a person-keyed map
(`map[key] = map[key] || dflt; mutate`): a new key is appended at the end,
an existing key is updated in place. -/
def upsert (k : String) (d : β) (f : β → β) : List (String × β) → List (String × β)
  | [] => [(k, f d)]
  | (k', v) :: rest => if k' = k then (k', f v) :: rest else (k', v) :: upsert k d f rest

/-- First field change satisfying `p`, scanning history entries in order and
each entry's items in order; returns the entry's actor and the change. -/
def firstItemMatch (p : FieldChange → Bool) : List Changelog → Option (String × FieldChange)
  | [] => none
  | h :: rest =>
    match h.items.find? p with
    | some it => some (h.author, it)
    | none => firstItemMatch p rest

/-- Primary predicate of the Starter pass as the code checks it:
`item.field === 'status' && item.toString === 'In Progress'`
(any source status). -/
def primStarter (it : FieldChange) : Bool :=
  it.field == "status" && it.toString == "In Progress"

/-- Fallback predicate of the Starter pass:
`item.field === 'status' && item.fromString === 'To Do'` (any destination). -/
def fbStarter (it : FieldChange) : Bool :=
  it.field == "status" && it.fromString == "To Do"

/-- Loop state of the starter scan (`starter`, `movedDirectlyToInProgress`,
`firstMoverFromToDo`); the JS sentinels are empty strings. -/
structure StarterScan where
  starter : String
  movedDirectlyToInProgress : Bool
  firstMoverFromToDo : String
deriving DecidableEq

/-- Inner item loop of the starter scan: on the first change to
"In Progress" set the starter, record whether its source was "To Do", and
break; otherwise track the first mover from "To Do" as backup. -/
def starterScanItems (author : String) : List FieldChange → StarterScan → StarterScan
  | [], acc => acc
  | it :: rest, acc =>
    if primStarter it && (acc.starter == "") then
      { acc with starter := author, movedDirectlyToInProgress := it.fromString == "To Do" }
    else if fbStarter it && (acc.firstMoverFromToDo == "") then
      starterScanItems author rest { acc with firstMoverFromToDo := author }
    else
      starterScanItems author rest acc

/-- Outer history loop of the starter scan: process entries in order and
break as soon as a starter is set. -/
def starterScanHistories : List Changelog → StarterScan → StarterScan
  | [], acc => acc
  | h :: rest, acc =>
    let acc' := starterScanItems h.author h.items acc
    if acc'.starter == "" then starterScanHistories rest acc' else acc'

/-- Starter attribution for one completed issue's histories: run the scan on
the sorted entries, fall back to the first mover from "To Do" (certainty
false), and fall back to the sentinel "Unknown" (certainty false) when
nobody was found. -/
def starterResult (hs : List Changelog) : String × Bool :=
  let s := starterScanHistories (sortHistories hs) ⟨"", false, ""⟩
  let s := if s.starter == "" && !(s.firstMoverFromToDo == "") then
      { s with starter := s.firstMoverFromToDo, movedDirectlyToInProgress := false }
    else s
  if s.starter == "" then ("Unknown", false) else (s.starter, s.movedDirectlyToInProgress)

/-- Starter attribution as claim C2 words it (for comparison only, not a
translation of the source): the actor of the first status change with
from "To Do" and to "In Progress", certainty true; else the actor of the
first status change from "To Do" to any destination, certainty false; else
the sentinel. -/
def starterResultPerClaim (hs : List Changelog) : String × Bool :=
  match firstItemMatch (fun it => it.field == "status" && it.fromString == "To Do" && it.toString == "In Progress") (sortHistories hs) with
  | some (a, _) => (a, true)
  | none =>
    match firstItemMatch fbStarter (sortHistories hs) with
    | some (a, _) => (a, false)
    | none => ("Unknown", false)

/-- Per-person completion bucket (`IssueCompletionStats` values). -/
structure CompletionBucket where
  started : Nat
  completed : Nat
  completedIssues : List String
deriving DecidableEq

/-- Record the starter attribution of one completed issue: increment both
`started` and `completed` for the attributed person and append the issue
key, with a trailing `*` when the attribution was not a direct
"To Do" to "In Progress" move (the "Unknown" branch always appends `*`). -/
def completionStep (issue : Issue) (m : List (String × CompletionBucket)) : List (String × CompletionBucket) :=
  match issue.histories with
  | none => m
  | some hs =>
    let r := starterResult hs
    let issueKey := if r.2 then issue.key else issue.key ++ "*"
    upsert r.1 ⟨0, 0, []⟩
      (fun b => { started := b.started + 1, completed := b.completed + 1, completedIssues := b.completedIssues ++ [issueKey] }) m

/-- Loop state of the reviewer scan. -/
structure ReviewerScan where
  reviewer : String
  movedDirectlyToTesting : Bool
  firstMoverFromPRReady : String
deriving DecidableEq

/-- Inner item loop of the reviewer scan: under `field === 'status'`, first
track the first mover from "PR Ready", then on a direct
"PR Ready" to "Testing" move set the reviewer and break. -/
def reviewerScanItems (author : String) : List FieldChange → ReviewerScan → ReviewerScan
  | [], acc => acc
  | it :: rest, acc =>
    if it.field == "status" then
      let acc1 := if it.fromString == "PR Ready" && (acc.firstMoverFromPRReady == "") then
          { acc with firstMoverFromPRReady := author }
        else acc
      if it.fromString == "PR Ready" && it.toString == "Testing" && (acc1.reviewer == "") then
        { acc1 with reviewer := author, movedDirectlyToTesting := true }
      else reviewerScanItems author rest acc1
    else reviewerScanItems author rest acc

/-- Outer history loop of the reviewer scan. -/
def reviewerScanHistories : List Changelog → ReviewerScan → ReviewerScan
  | [], acc => acc
  | h :: rest, acc =>
    let acc' := reviewerScanItems h.author h.items acc
    if acc'.reviewer == "" then reviewerScanHistories rest acc' else acc'

/-- Reviewer attribution for one completed issue's histories. -/
def reviewerResult (hs : List Changelog) : String × Bool :=
  let s := reviewerScanHistories (sortHistories hs) ⟨"", false, ""⟩
  let s := if s.reviewer == "" && !(s.firstMoverFromPRReady == "") then
      { s with reviewer := s.firstMoverFromPRReady, movedDirectlyToTesting := false }
    else s
  if s.reviewer == "" then ("Unknown", false) else (s.reviewer, s.movedDirectlyToTesting)

/-- Per-person reviewer bucket (`ReviewerStats` values). -/
structure ReviewBucket where
  reviewed : Nat
  reviewedIssues : List String
deriving DecidableEq

/-- Record the reviewer attribution of one completed issue. -/
def reviewerStep (issue : Issue) (m : List (String × ReviewBucket)) : List (String × ReviewBucket) :=
  match issue.histories with
  | none => m
  | some hs =>
    let r := reviewerResult hs
    let issueKey := if r.2 then issue.key else issue.key ++ "*"
    upsert r.1 ⟨0, []⟩
      (fun b => { reviewed := b.reviewed + 1, reviewedIssues := b.reviewedIssues ++ [issueKey] }) m

/-- Fallback predicate of the Shipper pass:
`item.field === 'status' && item.fromString === 'Testing'`. -/
def fbShipper (it : FieldChange) : Bool :=
  it.field == "status" && it.fromString == "Testing"

/-- Primary predicate of the Shipper pass: a direct
"Testing" to "UAT Ready" move. -/
def primShipper (it : FieldChange) : Bool :=
  it.field == "status" && it.fromString == "Testing" && it.toString == "UAT Ready"

/-- Loop state of the shipper scan. -/
structure ShipperScan where
  shipper : String
  movedDirectlyToUATReady : Bool
  firstMoverFromTesting : String
deriving DecidableEq

/-- Inner item loop of the shipper scan: under `field === 'status'`, first
track the first mover from "Testing", then on a direct
"Testing" to "UAT Ready" move set the shipper and break. -/
def shipperScanItems (author : String) : List FieldChange → ShipperScan → ShipperScan
  | [], acc => acc
  | it :: rest, acc =>
    if it.field == "status" then
      let acc1 := if it.fromString == "Testing" && (acc.firstMoverFromTesting == "") then
          { acc with firstMoverFromTesting := author }
        else acc
      if it.fromString == "Testing" && it.toString == "UAT Ready" && (acc1.shipper == "") then
        { acc1 with shipper := author, movedDirectlyToUATReady := true }
      else shipperScanItems author rest acc1
    else shipperScanItems author rest acc

/-- Outer history loop of the shipper scan. -/
def shipperScanHistories : List Changelog → ShipperScan → ShipperScan
  | [], acc => acc
  | h :: rest, acc =>
    let acc' := shipperScanItems h.author h.items acc
    if acc'.shipper == "" then shipperScanHistories rest acc' else acc'

/-- Shipper attribution for one issue.  The scan runs on every issue whose
changelog is present; when nobody moved the issue from "Testing", the
"Unknown" sentinel is recorded only when the issue currently sits in
"UAT Ready" or "Done", otherwise nothing is recorded. -/
def shipperResult (issue : Issue) : Option (String × Bool) :=
  match issue.histories with
  | none => none
  | some hs =>
    let s := shipperScanHistories (sortHistories hs) ⟨"", false, ""⟩
    let s := if s.shipper == "" && !(s.firstMoverFromTesting == "") then
        { s with shipper := s.firstMoverFromTesting, movedDirectlyToUATReady := false }
      else s
    if s.shipper == "" then
      if issue.status = "UAT Ready" ∨ issue.status = "Done" then some ("Unknown", false) else none
    else some (s.shipper, s.movedDirectlyToUATReady)

/-- Per-person shipper bucket (`ShipperStats` values). -/
structure ShipBucket where
  shipped : Nat
  shippedIssues : List String
deriving DecidableEq

/-- Record the shipper attribution of one issue, when any. -/
def shipperStep (issue : Issue) (m : List (String × ShipBucket)) : List (String × ShipBucket) :=
  match shipperResult issue with
  | none => m
  | some r =>
    let issueKey := if r.2 then issue.key else issue.key ++ "*"
    upsert r.1 ⟨0, []⟩
      (fun b => { shipped := b.shipped + 1, shippedIssues := b.shippedIssues ++ [issueKey] }) m

/-- Fixed iteration length the spillover age formula hard-codes:
`1000 * 60 * 60 * 24 * 14` milliseconds (14 days). -/
def msPerIteration : Int := 1000 * 60 * 60 * 24 * 14

/-- Ceiling of the exact quotient of two integers, `Math.ceil(a / b)` for a
positive divisor, written with floor division so that it evaluates by kernel
reduction; `jsCeilDiv_eq_ceil` below identifies it with the rational
ceiling. -/
def jsCeilDiv (a b : Int) : Int :=
  -((-a).fdiv b)

/-- Spillover age in iteration-units:
`Math.ceil((sprintStartDate.getTime() - issueStartDate.getTime()) / (1000*60*60*24*14))`. -/
def sprintAgeOf (sprintStart startMs : Int) : Int :=
  jsCeilDiv (sprintStart - startMs) msPerIteration

/-- Age tiers of a spillover item. -/
inductive AgeGroup where
  | recent
  | moderate
  | old
  | critical
deriving DecidableEq

/-- The tier classifier `getAgeGroupLabel`. -/
def getAgeGroupLabel (sprintAge : Int) : AgeGroup :=
  if sprintAge ≤ 2 then .recent
  else if sprintAge ≤ 4 then .moderate
  else if sprintAge ≤ 6 then .old
  else .critical

/-- The four per-tier issue-label lists of a spillover bucket. -/
structure AgeGroups where
  recent : List String
  moderate : List String
  old : List String
  critical : List String
deriving DecidableEq

/-- Append a label to the list of one tier. -/
def pushAgeGroup (g : AgeGroup) (label : String) (ags : AgeGroups) : AgeGroups :=
  match g with
  | .recent => { ags with recent := ags.recent ++ [label] }
  | .moderate => { ags with moderate := ags.moderate ++ [label] }
  | .old => { ags with old := ags.old ++ [label] }
  | .critical => { ags with critical := ags.critical ++ [label] }

/-- The label list of one tier. -/
def tierList (g : AgeGroup) (ags : AgeGroups) : List String :=
  match g with
  | .recent => ags.recent
  | .moderate => ags.moderate
  | .old => ags.old
  | .critical => ags.critical

/-- One recorded spillover issue. -/
structure SpillIssue where
  key : String
  startDate : Int
  originalSprint : String
  sprintAge : Int
deriving DecidableEq

/-- Per-person spillover bucket (`SpilloverStats` values). -/
structure SpillBucket where
  count : Nat
  totalSprintWeeks : Int
  issues : List SpillIssue
  ageGroups : AgeGroups
deriving DecidableEq

/-- The empty spillover bucket the code inserts on first touch. -/
def emptySpillBucket : SpillBucket :=
  { count := 0, totalSprintWeeks := 0, issues := [], ageGroups := ⟨[], [], [], []⟩ }

/-- Record one spillover issue under `person`: bump the count, add
`sprintAge * 2` sprint-weeks, push the labelled key into its age tier and
append the issue record. -/
def spillRecord (sprint : Sprint) (issue : Issue) (person : String) (startMs : Int)
    (m : List (String × SpillBucket)) : List (String × SpillBucket) :=
  let sprintAge := sprintAgeOf sprint.startDate startMs
  let sprintWeeks := sprintAge * 2
  let label := issue.key ++ " (" ++ toString sprintAge ++ " sprints)"
  upsert person emptySpillBucket
    (fun b =>
      { count := b.count + 1
        totalSprintWeeks := b.totalSprintWeeks + sprintWeeks
        issues := b.issues ++ [⟨issue.key, startMs, sprint.name, sprintAge⟩]
        ageGroups := pushAgeGroup (getAgeGroupLabel sprintAge) label b.ageGroups }) m

/-- Loop state of the spillover start-moment search: the starter name (the
empty-string JS sentinel) and the matched entry's timestamp (`none` models
the initial empty `startDate` string). -/
structure SpillScan where
  starter : String
  startDate : Option Int
deriving DecidableEq

/-- First spillover pass over one entry's items: first change to
"In Progress" (any source) sets starter and start moment, then breaks. -/
def spillScanItemsPrimary (author : String) (created : Int) : List FieldChange → SpillScan → SpillScan
  | [], acc => acc
  | it :: rest, acc =>
    if primStarter it && (acc.starter == "") then
      { starter := author, startDate := some created }
    else spillScanItemsPrimary author created rest acc

/-- First spillover pass over the sorted entries, breaking once a starter
is set. -/
def spillScanPrimary : List Changelog → SpillScan → SpillScan
  | [], acc => acc
  | h :: rest, acc =>
    let acc' := spillScanItemsPrimary h.author h.created h.items acc
    if acc'.starter == "" then spillScanPrimary rest acc' else acc'

/-- Second spillover pass over one entry's items: first change from "To Do"
sets starter and start moment, then breaks. -/
def spillScanItemsFallback (author : String) (created : Int) : List FieldChange → SpillScan → SpillScan
  | [], acc => acc
  | it :: rest, acc =>
    if fbStarter it && (acc.starter == "") then
      { starter := author, startDate := some created }
    else spillScanItemsFallback author created rest acc

/-- Second spillover pass over the sorted entries. -/
def spillScanFallback : List Changelog → SpillScan → SpillScan
  | [], acc => acc
  | h :: rest, acc =>
    let acc' := spillScanItemsFallback h.author h.created h.items acc
    if acc'.starter == "" then spillScanFallback rest acc' else acc'

/-- Spillover handling of one unfinished issue: find its start moment (first
move to "In Progress", else first move from "To Do"); if found and it
precedes the sprint start, record under the starter; otherwise, if the issue
has any history whose earliest entry precedes the sprint start, record under
"Unknown" with that entry's timestamp as proxy start moment; otherwise
record nothing. -/
def spilloverStep (sprint : Sprint) (issue : Issue)
    (m : List (String × SpillBucket)) : List (String × SpillBucket) :=
  match issue.histories with
  | none => m
  | some hs =>
    let sorted := sortHistories hs
    let s := spillScanPrimary sorted ⟨"", none⟩
    let s := if s.starter == "" then spillScanFallback sorted ⟨"", none⟩ else s
    if !(s.starter == "") ∧ s.startDate.isSome then
      match s.startDate with
      | some startMs =>
        if startMs < sprint.startDate then spillRecord sprint issue s.starter startMs m else m
      | none => m
    else
      match sorted.head? with
      | none => m
      | some h0 =>
        if h0.created < sprint.startDate then spillRecord sprint issue "Unknown" h0.created m else m

/-- Per-sprint worklog filter and per-person summation: keep an entry iff its
timestamp lies within `[sprint.startDate, sprint.endDate]` inclusive, then
add its seconds to its author's total. -/
def timeLoggedStep (sprint : Sprint) (issue : Issue)
    (m : List (String × Nat)) : List (String × Nat) :=
  match issue.worklogs with
  | none => m
  | some ws =>
    let sprintWorklogs := ws.filter (fun w => decide (sprint.startDate ≤ w.started) && decide (w.started ≤ sprint.endDate))
    sprintWorklogs.foldl (fun acc w => upsert w.author 0 (fun t => t + w.timeSpentSeconds) acc) m

/-- JS falsiness of `issue.fields.timeoriginalestimate`: absent, null or
zero. -/
def missingEstimate (e : Option Nat) : Bool :=
  match e with
  | none => true
  | some n => n == 0

/-- Per-item missing-estimate tracking: push a `(key, assignee)` pair for
every issue whose original-estimate field is falsy (this appends to the list
already seeded with the upstream query result). -/
def estimateStep (issue : Issue) (l : List (String × Option String)) : List (String × Option String) :=
  if missingEstimate issue.timeoriginalestimate then l ++ [(issue.key, issue.assignee)] else l

/-- All accumulators the per-sprint issue loop threads. -/
structure SprintState where
  completedIssues : Nat
  completionStats : List (String × CompletionBucket)
  reviewerStats : List (String × ReviewBucket)
  shipperStats : List (String × ShipBucket)
  spilloverStats : List (String × SpillBucket)
  timeLogged : List (String × Nat)
  missingEstimates : List (String × Option String)
deriving DecidableEq

/-- Body of the per-issue loop, in source order: missing-estimate tracking,
spillover analysis for unfinished issues, the shipper pass, then for
completed issues the counter plus the reviewer and starter passes, and
finally the worklog filter-and-sum. -/
def stepIssue (sprint : Sprint) (st : SprintState) (issue : Issue) : SprintState :=
  let st := { st with missingEstimates := estimateStep issue st.missingEstimates }
  let st := if issue.status ≠ "Done" then
      { st with spilloverStats := spilloverStep sprint issue st.spilloverStats }
    else st
  let st := { st with shipperStats := shipperStep issue st.shipperStats }
  let st := if issue.status = "Done" then
      { st with
        completedIssues := st.completedIssues + 1
        reviewerStats := reviewerStep issue st.reviewerStats
        completionStats := completionStep issue st.completionStats }
    else st
  { st with timeLogged := timeLoggedStep sprint issue st.timeLogged }

/-- Process one sprint's issue list.  `noEstimateIssues` is the
upstream-provided query result for issues lacking an original estimate; the
loop appends its own per-item findings to it. -/
def processSprint (sprint : Sprint) (noEstimateIssues : List (String × Option String))
    (issues : List Issue) : SprintState :=
  issues.foldl (stepIssue sprint)
    { completedIssues := 0, completionStats := [], reviewerStats := [], shipperStats := []
      spilloverStats := [], timeLogged := [], missingEstimates := noEstimateIssues }

/-- Sum of the per-person `started` counters of a completion map. -/
def sumStarted (m : List (String × CompletionBucket)) : Nat :=
  (m.map (fun kv => kv.2.started)).sum

/-- Sum of the per-person `completed` counters of a completion map. -/
def sumCompleted (m : List (String × CompletionBucket)) : Nat :=
  (m.map (fun kv => kv.2.completed)).sum

/-- Cross-sprint reduction of the per-sprint completion maps: per person,
sum the counters and concatenate the key lists, iterating sprints and each
sprint's entries in order. -/
def totalCompletionStats (summaries : List (List (String × CompletionBucket))) : List (String × CompletionBucket) :=
  summaries.foldl
    (fun acc m =>
      m.foldl
        (fun acc kv =>
          upsert kv.1 ⟨0, 0, []⟩
            (fun b =>
              { started := b.started + kv.2.started
                completed := b.completed + kv.2.completed
                completedIssues := b.completedIssues ++ kv.2.completedIssues }) acc) acc)
    []

/-- Seconds logged by `p` in a per-person total map, zero when absent. -/
def getSeconds : List (String × Nat) → String → Nat
  | [], _ => 0
  | (k, v) :: rest, p => if k = p then v else getSeconds rest p

/-- Value of a JavaScript floating-point expression as the core uses it:
a finite rational, positive infinity, or NaN.  Division of nonnegative
operands yields NaN exactly for 0/0 and positive infinity for x/0, x > 0. -/
inductive JsNum where
  | finite : ℚ → JsNum
  | posInf : JsNum
  | nan : JsNum
deriving DecidableEq

/-- The completion percentage `(completed / total) * 100` with JS division
semantics at a zero denominator. -/
def completionPercentage (completed total : Nat) : JsNum :=
  if total = 0 then (if completed = 0 then .nan else .posInf)
  else .finite ((completed : ℚ) / (total : ℚ) * 100)

/-- JS `x >= c` for the three value kinds: NaN compares false, positive
infinity compares true. -/
def jsGe (x : JsNum) (c : ℚ) : Bool :=
  match x with
  | .finite q => decide (c ≤ q)
  | .posInf => true
  | .nan => false

/-- Colour tiers of `getCompletionColor`. -/
inductive Color where
  | green
  | yellow
  | red
deriving DecidableEq

/-- The completion colour classifier: green at 80% and above, yellow at 50%
and above, red otherwise (both comparisons are false on NaN). -/
def getCompletionColor (completed total : Nat) : Color :=
  if jsGe (completionPercentage completed total) 80 then .green
  else if jsGe (completionPercentage completed total) 50 then .yellow
  else .red

/-- Order the leaderboard comparator `(a, b) => b[1] - a[1]` induces:
descending by metric value, the person name never consulted. -/
def scoreGE (a b : String × ℚ) : Prop := b.2 ≤ a.2

instance : DecidableRel scoreGE := fun a b => inferInstanceAs (Decidable (b.2 ≤ a.2))

instance : IsTotal (String × ℚ) scoreGE := ⟨fun a b => le_total b.2 a.2⟩

instance : IsTrans (String × ℚ) scoreGE := ⟨fun _ _ _ h1 h2 => le_trans h2 h1⟩

/-- The leaderboard extractor `getTopPerformers`:
`Object.entries(data).sort((a, b) => b[1] - a[1]).slice(0, 3)` — stable sort
by value descending, then the first three entries. -/
def getTopPerformers (data : List (String × ℚ)) : List (String × ℚ) :=
  (List.insertionSort scoreGE data).take 3

/-- Actor of the first field change satisfying the starter fallback
predicate, the empty-string sentinel when there is none. -/
def fmOfStarter (l : List Changelog) : String :=
  match firstItemMatch fbStarter l with
  | some (a, _) => a
  | none => ""

/-- Actor of the first field change satisfying the shipper fallback
predicate, the empty-string sentinel when there is none. -/
def fmOfShipper (l : List Changelog) : String :=
  match firstItemMatch fbShipper l with
  | some (a, _) => a
  | none => ""

/-- Concrete fixture for C1: a completed issue whose changelog is absent. -/
def issueC1 : Issue := ⟨"K1", "Done", none, some 5, none, none⟩

/-- Concrete fixture for C1: its sprint. -/
def sprintC1 : Sprint := ⟨"S", 0, 1209600000⟩

/-- Concrete fixture for the C1 witness: a completed issue with an empty
(but present) change history. -/
def issueC1w : Issue := ⟨"K2", "Done", none, some 5, none, some []⟩

/-- Concrete fixture for C2: a history whose first move to "In Progress"
comes from "Blocked" (by Alice) and whose first "To Do" to "In Progress"
move comes later (by Bob). -/
def hsC2 : List Changelog :=
  [⟨"Alice", 1, [⟨"status", "Blocked", "In Progress"⟩]⟩,
   ⟨"Bob", 2, [⟨"status", "To Do", "In Progress"⟩]⟩]

/-- Concrete fixture for C3: an issue still in "In Progress" that was once
sent back from "Testing" and never reached "UAT Ready". -/
def issueC3 : Issue :=
  ⟨"K3", "In Progress", none, some 5, none,
   some [⟨"Alice", 1, [⟨"status", "Testing", "In Progress"⟩]⟩]⟩

/-- Concrete fixture for C5: a completed issue whose two history entries
arrive out of chronological order. -/
def issueC5 : Issue :=
  ⟨"K5", "Done", none, some 1, none, some [⟨"B", 5, []⟩, ⟨"A", 3, []⟩]⟩

/-- Concrete fixture for C6: a sprint starting exactly three iterations
after epoch zero. -/
def sprintC6 : Sprint := ⟨"S1", 3628800000, 4838400000⟩

/-- Concrete fixture for C6: an unfinished issue started at epoch zero,
three iterations before `sprintC6`. -/
def issueC6 : Issue :=
  ⟨"K6", "In Progress", none, some 5, none,
   some [⟨"Alice", 0, [⟨"status", "To Do", "In Progress"⟩]⟩]⟩

/-- Concrete fixture for C8: the sprint. -/
def sprintC8 : Sprint := ⟨"S", 0, 1209600000⟩

/-- Concrete fixture for C8: an issue with no original estimate that the
upstream no-estimate query also returns. -/
def issueC8 : Issue := ⟨"X", "To Do", none, none, none, none⟩

/-- Concrete fixture for C9: the sprint, running from epoch 0 to epoch
1209600000 milliseconds. -/
def sprintC9 : Sprint := ⟨"S", 0, 1209600000⟩

/-- Concrete fixture for C9: one issue with a worklog entry exactly at the
sprint end and one a second after it. -/
def issueC9 : Issue :=
  ⟨"K9", "In Progress", none, some 5,
   some [⟨"P", 1209600000, 3600⟩, ⟨"P", 1209601000, 1800⟩], none⟩

/-- Concrete fixture for C10: a completed issue started by Alice. -/
def issueC10 : Issue :=
  ⟨"K10", "Done", none, some 5, none,
   some [⟨"Alice", 1, [⟨"status", "To Do", "In Progress"⟩]⟩]⟩

/-- Concrete fixture for C10: its sprint. -/
def sprintC10 : Sprint := ⟨"S", 0, 1209600000⟩

/-! ### Generic bookkeeping lemmas -/

theorem upsert_forall {β : Type} {P : β → Prop} {k : String} {d : β} {f : β → β}
    (hd : P (f d)) (hf : ∀ v, P v → P (f v)) :
    ∀ (m : List (String × β)), (∀ q b, (q, b) ∈ m → P b) →
      ∀ q b, (q, b) ∈ upsert k d f m → P b := by
  intro m
  induction m with
  | nil =>
    intro _ q b hb
    simp only [upsert, List.mem_singleton, Prod.mk.injEq] at hb
    exact hb.2 ▸ hd
  | cons kv rest ih =>
    intro hm q b hb
    obtain ⟨k', v⟩ := kv
    simp only [upsert] at hb
    by_cases hk : k' = k
    · rw [if_pos hk] at hb
      rcases List.mem_cons.mp hb with h | h
      · simp only [Prod.mk.injEq] at h
        exact h.2 ▸ hf v (hm k' v (List.mem_cons_self _ _))
      · exact hm q b (List.mem_cons_of_mem _ h)
    · rw [if_neg hk] at hb
      rcases List.mem_cons.mp hb with h | h
      · simp only [Prod.mk.injEq] at h
        exact h.2 ▸ hm k' v (List.mem_cons_self _ _)
      · exact ih (fun q b hqb => hm q b (List.mem_cons_of_mem _ hqb)) q b h

theorem sum_map_upsert {β : Type} (g : β → Nat) (k : String) (d : β) (f : β → β) (n : Nat)
    (hf : ∀ v, g (f v) = g v + n) (hd : g d = 0) :
    ∀ m : List (String × β),
      ((upsert k d f m).map (fun kv => g kv.2)).sum = ((m.map (fun kv => g kv.2)).sum) + n := by
  intro m
  induction m with
  | nil => simp [upsert, hf, hd]
  | cons kv rest ih =>
    obtain ⟨k', v⟩ := kv
    by_cases hk : k' = k
    · simp only [upsert, if_pos hk, List.map_cons, List.sum_cons, hf]
      omega
    · simp only [upsert, if_neg hk, List.map_cons, List.sum_cons, ih]
      omega

theorem getSeconds_upsert_add (a : String) (s : Nat) (p : String) :
    ∀ m : List (String × Nat),
      getSeconds (upsert a 0 (fun t => t + s) m) p
        = getSeconds m p + (if a = p then s else 0) := by
  intro m
  induction m with
  | nil => by_cases hap : a = p <;> simp [upsert, getSeconds, hap]
  | cons kv rest ih =>
    obtain ⟨k, v⟩ := kv
    by_cases hk : k = a
    · subst hk
      by_cases hap : k = p <;> simp [upsert, getSeconds, hap]
    · by_cases hp : k = p
      · have hpa : ¬ p = a := fun h => hk (hp.trans h)
        have hap : ¬ a = p := fun h => hpa h.symm
        simp [upsert, getSeconds, hp, hpa, hap]
      · simp [upsert, getSeconds, hk, hp, ih]

/-! ### Projections of one loop-body step -/

theorem stepIssue_completedIssues (sprint : Sprint) (st : SprintState) (issue : Issue) :
    (stepIssue sprint st issue).completedIssues
      = st.completedIssues + (if issue.status = "Done" then 1 else 0) := by
  by_cases h : issue.status = "Done" <;> simp [stepIssue, h]

theorem stepIssue_completionStats (sprint : Sprint) (st : SprintState) (issue : Issue) :
    (stepIssue sprint st issue).completionStats
      = if issue.status = "Done" then completionStep issue st.completionStats
        else st.completionStats := by
  by_cases h : issue.status = "Done" <;> simp [stepIssue, h]

theorem stepIssue_spilloverStats (sprint : Sprint) (st : SprintState) (issue : Issue) :
    (stepIssue sprint st issue).spilloverStats
      = if issue.status = "Done" then st.spilloverStats
        else spilloverStep sprint issue st.spilloverStats := by
  by_cases h : issue.status = "Done" <;> simp [stepIssue, h]

theorem stepIssue_timeLogged (sprint : Sprint) (st : SprintState) (issue : Issue) :
    (stepIssue sprint st issue).timeLogged = timeLoggedStep sprint issue st.timeLogged := by
  by_cases h : issue.status = "Done" <;> simp [stepIssue, h]

theorem stepIssue_missingEstimates (sprint : Sprint) (st : SprintState) (issue : Issue) :
    (stepIssue sprint st issue).missingEstimates = estimateStep issue st.missingEstimates := by
  by_cases h : issue.status = "Done" <;> simp [stepIssue, h]

/-! ### Folding the loop body over the issue list -/

theorem foldl_completedIssues (sprint : Sprint) :
    ∀ (issues : List Issue) (st : SprintState),
      (issues.foldl (stepIssue sprint) st).completedIssues
        = st.completedIssues + issues.countP (fun i => i.status == "Done") := by
  intro issues
  induction issues with
  | nil => intro st; simp
  | cons i rest ih =>
    intro st
    rw [List.foldl_cons, ih, stepIssue_completedIssues]
    by_cases h : i.status = "Done"
    · simp [List.countP_cons, h]
      omega
    · simp [List.countP_cons, h]

theorem sumStarted_completionStep (i : Issue) (m : List (String × CompletionBucket)) :
    sumStarted (completionStep i m)
      = sumStarted m + (if i.histories.isSome then 1 else 0) := by
  cases hh : i.histories with
  | none => simp [completionStep, hh]
  | some hs =>
    simp only [completionStep, hh, sumStarted, Option.isSome_some, if_true]
    exact sum_map_upsert (fun b : CompletionBucket => b.started) (starterResult hs).1
      ⟨0, 0, []⟩
      (fun b => { started := b.started + 1, completed := b.completed + 1,
                  completedIssues := b.completedIssues
                    ++ [if (starterResult hs).2 = true then i.key else i.key ++ "*"] })
      1 (fun v => rfl) rfl m

theorem sumCompleted_completionStep (i : Issue) (m : List (String × CompletionBucket)) :
    sumCompleted (completionStep i m)
      = sumCompleted m + (if i.histories.isSome then 1 else 0) := by
  cases hh : i.histories with
  | none => simp [completionStep, hh]
  | some hs =>
    simp only [completionStep, hh, sumCompleted, Option.isSome_some, if_true]
    exact sum_map_upsert (fun b : CompletionBucket => b.completed) (starterResult hs).1
      ⟨0, 0, []⟩
      (fun b => { started := b.started + 1, completed := b.completed + 1,
                  completedIssues := b.completedIssues
                    ++ [if (starterResult hs).2 = true then i.key else i.key ++ "*"] })
      1 (fun v => rfl) rfl m

theorem foldl_sumStarted (sprint : Sprint) :
    ∀ (issues : List Issue) (st : SprintState),
      sumStarted ((issues.foldl (stepIssue sprint) st).completionStats)
        = sumStarted st.completionStats
          + issues.countP (fun i => i.status == "Done" && i.histories.isSome) := by
  intro issues
  induction issues with
  | nil => intro st; simp
  | cons i rest ih =>
    intro st
    rw [List.foldl_cons, ih, stepIssue_completionStats]
    by_cases h : i.status = "Done"
    · rw [if_pos h, sumStarted_completionStep]
      by_cases hs : i.histories.isSome
      · simp [List.countP_cons, h, hs]
        omega
      · simp [List.countP_cons, h, hs]
    · rw [if_neg h]
      simp [List.countP_cons, h]

theorem foldl_sumCompleted (sprint : Sprint) :
    ∀ (issues : List Issue) (st : SprintState),
      sumCompleted ((issues.foldl (stepIssue sprint) st).completionStats)
        = sumCompleted st.completionStats
          + issues.countP (fun i => i.status == "Done" && i.histories.isSome) := by
  intro issues
  induction issues with
  | nil => intro st; simp
  | cons i rest ih =>
    intro st
    rw [List.foldl_cons, ih, stepIssue_completionStats]
    by_cases h : i.status = "Done"
    · rw [if_pos h, sumCompleted_completionStep]
      by_cases hs : i.histories.isSome
      · simp [List.countP_cons, h, hs]
        omega
      · simp [List.countP_cons, h, hs]
    · rw [if_neg h]
      simp [List.countP_cons, h]

/-! ### Claim C1 -/

/-- C1 as stated is false: a completed issue whose changelog is absent is
counted in `completedIssues` but attributed to no starter bucket, so both
per-person sums fall short of the completed total. -/
theorem claimC1_counterexample :
    (processSprint sprintC1 [] [issueC1]).completedIssues = 1 ∧
    sumStarted (processSprint sprintC1 [] [issueC1]).completionStats = 0 ∧
    sumCompleted (processSprint sprintC1 [] [issueC1]).completionStats = 0 := by
  decide

/-- C1 (amended): provided every completed issue of the sprint has a change
history present (an empty history is fine — it is attributed to "Unknown"),
the per-person `started` counts and the per-person `completed` counts each
sum to the sprint's `completedIssues` total; an issue whose changelog is
absent is counted in `completedIssues` but dropped from every bucket. -/
theorem claimC1_sums (sprint : Sprint) (noEst : List (String × Option String))
    (issues : List Issue)
    (h : ∀ i ∈ issues, i.status = "Done" → i.histories.isSome) :
    sumStarted (processSprint sprint noEst issues).completionStats
        = (processSprint sprint noEst issues).completedIssues
    ∧ sumCompleted (processSprint sprint noEst issues).completionStats
        = (processSprint sprint noEst issues).completedIssues := by
  have hc : issues.countP (fun i => i.status == "Done" && i.histories.isSome)
      = issues.countP (fun i => i.status == "Done") := by
    apply List.countP_congr
    intro i hi
    constructor
    · intro hb
      exact (Bool.and_eq_true _ _ |>.mp hb).1
    · intro hb
      have hd : i.status = "Done" := by simpa using hb
      have hsome : i.histories.isSome := h i hi hd
      simp [hb, hsome]
  unfold processSprint
  rw [foldl_sumStarted, foldl_sumCompleted, foldl_completedIssues, hc]
  simp [sumStarted, sumCompleted]

/-- C1 witness: a sprint with one completed issue whose history is present
but empty satisfies the hypothesis, and both sums equal the completed
total. -/
theorem claimC1_witness :
    (∀ i ∈ [issueC1w], i.status = "Done" → i.histories.isSome) ∧
    (sumStarted (processSprint sprintC1 [] [issueC1w]).completionStats
        = (processSprint sprintC1 [] [issueC1w]).completedIssues
      ∧ sumCompleted (processSprint sprintC1 [] [issueC1w]).completionStats
        = (processSprint sprintC1 [] [issueC1w]).completedIssues) :=
  ⟨by decide, claimC1_sums sprintC1 [] [issueC1w] (by decide)⟩

/-! ### Claim C4 -/

/-- C4: the completion-percentage computation is not guarded at zero items:
for a sprint (or grand total) with zero issues it evaluates `0 / 0` and
yields NaN rather than a defined sentinel such as 0%, and the colour
classifier then lands on red only because NaN fails both threshold
comparisons. -/
theorem claimC4_unguarded_percentage :
    completionPercentage 0 0 = JsNum.nan ∧ getCompletionColor 0 0 = Color.red := by
  decide

/-! ### Claim C8 -/

/-- C8: the missing-estimate list is not only the upstream query result:
the loop re-derives membership from the per-item field and appends, so an
issue present in both sources appears twice. -/
theorem claimC8_double_count :
    (processSprint sprintC8 [("X", none)] [issueC8]).missingEstimates
      = [("X", none), ("X", none)] ∧
    ((processSprint sprintC8 [("X", none)] [issueC8]).missingEstimates).count ("X", none) = 2 := by
  decide

/-! ### Claim C9 -/

theorem getSeconds_worklog_fold (p : String) :
    ∀ (ws : List Worklog) (m : List (String × Nat)),
      getSeconds (ws.foldl (fun acc w => upsert w.author 0 (fun t => t + w.timeSpentSeconds) acc) m) p
        = getSeconds m p
          + ((ws.filter (fun w => w.author == p)).map (fun w => w.timeSpentSeconds)).sum := by
  intro ws
  induction ws with
  | nil => intro m; simp
  | cons w rest ih =>
    intro m
    rw [List.foldl_cons, ih, getSeconds_upsert_add]
    by_cases h : w.author = p
    · simp [List.filter_cons, h]
      omega
    · simp [List.filter_cons, h]

theorem timeLoggedStep_getSeconds (sprint : Sprint) (i : Issue)
    (m : List (String × Nat)) (p : String) :
    getSeconds (timeLoggedStep sprint i m) p
      = getSeconds m p
        + (((i.worklogs.getD []).filter (fun w =>
            w.author == p && (decide (sprint.startDate ≤ w.started) && decide (w.started ≤ sprint.endDate)))).map
            (fun w => w.timeSpentSeconds)).sum := by
  cases hw : i.worklogs with
  | none => simp [timeLoggedStep, hw]
  | some ws =>
    simp only [timeLoggedStep, hw, Option.getD_some]
    rw [getSeconds_worklog_fold, List.filter_filter]

theorem foldl_timeLogged (sprint : Sprint) :
    ∀ (issues : List Issue) (st : SprintState) (p : String),
      getSeconds ((issues.foldl (stepIssue sprint) st).timeLogged) p
        = getSeconds st.timeLogged p
          + (issues.map (fun i =>
              (((i.worklogs.getD []).filter (fun w =>
                w.author == p && (decide (sprint.startDate ≤ w.started) && decide (w.started ≤ sprint.endDate)))).map
                (fun w => w.timeSpentSeconds)).sum)).sum := by
  intro issues
  induction issues with
  | nil => intro st p; simp
  | cons i rest ih =>
    intro st p
    rw [List.foldl_cons, ih, stepIssue_timeLogged, timeLoggedStep_getSeconds,
      List.map_cons, List.sum_cons]
    omega

/-- C9: a worklog entry's seconds reach a person's per-sprint total exactly
when its timestamp lies in the inclusive window
`[sprint.startDate, sprint.endDate]`; concretely, an entry stamped exactly
at the sprint end is counted and one stamped a second later is not. -/
theorem claimC9_worklog_window (sprint : Sprint) (noEst : List (String × Option String))
    (issues : List Issue) (p : String) :
    getSeconds (processSprint sprint noEst issues).timeLogged p
      = (issues.map (fun i =>
          (((i.worklogs.getD []).filter (fun w =>
            w.author == p && (decide (sprint.startDate ≤ w.started) && decide (w.started ≤ sprint.endDate)))).map
            (fun w => w.timeSpentSeconds)).sum)).sum
    ∧ getSeconds (processSprint sprintC9 [] [issueC9]).timeLogged "P" = 3600 := by
  constructor
  · unfold processSprint
    rw [foldl_timeLogged]
    simp [getSeconds]
  · decide

/-! ### Claim C10 -/

theorem completionStep_preserves_eq (i : Issue) (m : List (String × CompletionBucket))
    (hm : ∀ q b, (q, b) ∈ m → b.started = b.completed) :
    ∀ q b, (q, b) ∈ completionStep i m → b.started = b.completed := by
  cases hh : i.histories with
  | none =>
    intro q b hb
    rw [completionStep, hh] at hb
    exact hm q b hb
  | some hs =>
    intro q b hb
    rw [completionStep, hh] at hb
    refine upsert_forall ?_ ?_ m hm q b hb
    · rfl
    · intro v hv
      simp [hv]

theorem foldl_completion_eq_inv (sprint : Sprint) :
    ∀ (issues : List Issue) (st : SprintState),
      (∀ q b, (q, b) ∈ st.completionStats → b.started = b.completed) →
      ∀ q b, (q, b) ∈ (issues.foldl (stepIssue sprint) st).completionStats →
        b.started = b.completed := by
  intro issues
  induction issues with
  | nil => intro st h; exact h
  | cons i rest ih =>
    intro st h
    refine ih (stepIssue sprint st i) ?_
    rw [stepIssue_completionStats]
    by_cases hd : i.status = "Done"
    · rw [if_pos hd]
      exact completionStep_preserves_eq i st.completionStats h
    · rw [if_neg hd]
      exact h

theorem totalCompletionStats_inner_inv (m : List (String × CompletionBucket))
    (hm : ∀ q b, (q, b) ∈ m → b.started = b.completed) :
    ∀ (acc : List (String × CompletionBucket)),
      (∀ q b, (q, b) ∈ acc → b.started = b.completed) →
      ∀ q b, (q, b) ∈ m.foldl
          (fun acc kv =>
            upsert kv.1 ⟨0, 0, []⟩
              (fun b =>
                { started := b.started + kv.2.started
                  completed := b.completed + kv.2.completed
                  completedIssues := b.completedIssues ++ kv.2.completedIssues }) acc) acc →
        b.started = b.completed := by
  induction m with
  | nil => intro acc hacc; exact hacc
  | cons kv rest ih =>
    intro acc hacc
    rw [List.foldl_cons]
    have hkv : kv.2.started = kv.2.completed := hm kv.1 kv.2 (by
      obtain ⟨k, v⟩ := kv
      exact List.mem_cons_self _ _)
    refine ih (fun q b hb => hm q b (List.mem_cons_of_mem _ hb)) _ ?_
    refine upsert_forall ?_ ?_ acc hacc
    · simp [hkv]
    · intro v hv
      simp [hv, hkv]

theorem totalCompletionStats_inv (summaries : List (List (String × CompletionBucket)))
    (hs : ∀ m ∈ summaries, ∀ q b, (q, b) ∈ m → b.started = b.completed) :
    ∀ q b, (q, b) ∈ totalCompletionStats summaries → b.started = b.completed := by
  unfold totalCompletionStats
  suffices hgen : ∀ (acc : List (String × CompletionBucket)),
      (∀ q b, (q, b) ∈ acc → b.started = b.completed) →
      ∀ q b, (q, b) ∈ summaries.foldl
          (fun acc m =>
            m.foldl
              (fun acc kv =>
                upsert kv.1 ⟨0, 0, []⟩
                  (fun b =>
                    { started := b.started + kv.2.started
                      completed := b.completed + kv.2.completed
                      completedIssues := b.completedIssues ++ kv.2.completedIssues }) acc) acc) acc →
        b.started = b.completed by
    exact hgen [] (by intro q b hb; simp at hb)
  induction summaries with
  | nil => intro acc hacc; exact hacc
  | cons m rest ih =>
    intro acc hacc
    rw [List.foldl_cons]
    refine ih (fun m' hm' => hs m' (List.mem_cons_of_mem _ hm')) _ ?_
    exact totalCompletionStats_inner_inv m (hs m (List.mem_cons_self _ _)) acc hacc

/-- C10: in every sprint's completion statistics and in the cross-sprint
totals, every person bucket has its `started` count equal to its
`completed` count — the two counters are only ever incremented together. -/
theorem claimC10_started_eq_completed
    (sprint : Sprint) (noEst : List (String × Option String)) (issues : List Issue)
    (sprints : List (Sprint × List (String × Option String) × List Issue)) :
    (∀ q b, (q, b) ∈ (processSprint sprint noEst issues).completionStats →
      b.started = b.completed)
    ∧ (∀ q b, (q, b) ∈ totalCompletionStats
        (sprints.map (fun t => (processSprint t.1 t.2.1 t.2.2).completionStats)) →
      b.started = b.completed) := by
  constructor
  · unfold processSprint
    refine foldl_completion_eq_inv sprint issues _ ?_
    intro q b hb
    simp at hb
  · refine totalCompletionStats_inv _ ?_
    intro m hm q b hb
    rw [List.mem_map] at hm
    obtain ⟨t, _, rfl⟩ := hm
    have hall : ∀ q b, (q, b) ∈ (processSprint t.1 t.2.1 t.2.2).completionStats →
        b.started = b.completed := by
      unfold processSprint
      refine foldl_completion_eq_inv t.1 t.2.2 _ ?_
      intro q b hb
      simp at hb
    exact hall q b hb

/-- C10 witness: in a sprint with one completed issue started by Alice, her
bucket is `⟨1, 1, ["K10"]⟩` and its two counters agree. -/
theorem claimC10_witness :
    (("Alice", (⟨1, 1, ["K10"]⟩ : CompletionBucket))
        ∈ (processSprint sprintC10 [] [issueC10]).completionStats)
    ∧ (⟨1, 1, ["K10"]⟩ : CompletionBucket).started
        = (⟨1, 1, ["K10"]⟩ : CompletionBucket).completed :=
  ⟨by decide,
   (claimC10_started_eq_completed sprintC10 [] [issueC10] []).1 "Alice" ⟨1, 1, ["K10"]⟩
     (by decide)⟩

/-! ### Claim C5 -/

/-- C5 as stated is false: the classifier passes sort the histories array in
place (`Array.prototype.sort` mutates), so an issue whose entries arrive out
of chronological order has a different histories sequence after the passes
run. -/
theorem claimC5_counterexample :
    (runClassifiersOnIssue issueC5).histories ≠ issueC5.histories := by
  decide

/-- C5 (amended): classification does mutate the event list — after the
passes run, the issue's histories are the stable ascending-by-timestamp
permutation of the original entries, and they coincide with the original
sequence exactly when it was already sorted. -/
theorem claimC5_sorted_in_place (issue : Issue) (hs : List Changelog)
    (h : issue.histories = some hs) :
    (runClassifiersOnIssue issue).histories = some (sortHistories hs)
    ∧ (sortHistories hs).Perm hs
    ∧ List.Sorted createdLE (sortHistories hs)
    ∧ (sortHistories hs = hs ↔ List.Sorted createdLE hs) := by
  refine ⟨?_, ?_, ?_, ?_, ?_⟩
  · simp [runClassifiersOnIssue, h]
  · exact List.perm_insertionSort createdLE hs
  · exact List.sorted_insertionSort createdLE hs
  · intro he
    exact he ▸ List.sorted_insertionSort createdLE hs
  · exact fun hsorted => hsorted.insertionSort_eq

/-- C5 witness: the amended statement applied to the out-of-order fixture. -/
theorem claimC5_witness :
    issueC5.histories = some [⟨"B", 5, []⟩, ⟨"A", 3, []⟩]
    ∧ ((runClassifiersOnIssue issueC5).histories
        = some (sortHistories [⟨"B", 5, []⟩, ⟨"A", 3, []⟩])
      ∧ (sortHistories [⟨"B", 5, []⟩, ⟨"A", 3, []⟩]).Perm [⟨"B", 5, []⟩, ⟨"A", 3, []⟩]
      ∧ List.Sorted createdLE (sortHistories [⟨"B", 5, []⟩, ⟨"A", 3, []⟩])
      ∧ (sortHistories [⟨"B", 5, []⟩, ⟨"A", 3, []⟩] = [⟨"B", 5, []⟩, ⟨"A", 3, []⟩]
          ↔ List.Sorted createdLE [⟨"B", 5, []⟩, ⟨"A", 3, []⟩])) :=
  ⟨rfl, claimC5_sorted_in_place issueC5 [⟨"B", 5, []⟩, ⟨"A", 3, []⟩] rfl⟩

/-! ### Claim C7 -/

theorem filter_orderedInsert_score (v : ℚ) (x : String × ℚ) (l : List (String × ℚ)) :
    (List.orderedInsert scoreGE x l).filter (fun kv => kv.2 == v)
      = if x.2 == v then x :: l.filter (fun kv => kv.2 == v)
        else l.filter (fun kv => kv.2 == v) := by
  induction l with
  | nil => by_cases hx : x.2 == v <;> simp [List.orderedInsert, hx]
  | cons y ys ih =>
    by_cases hle : scoreGE x y
    · rw [List.orderedInsert, if_pos hle]
      by_cases hx : x.2 == v <;> simp [List.filter_cons, hx]
    · rw [List.orderedInsert, if_neg hle]
      have hlt : x.2 < y.2 := lt_of_not_le hle
      by_cases hx : x.2 == v
      · have hxv : x.2 = v := by simpa using hx
        have hyv : ¬ (y.2 == v) = true := by
          simp only [beq_iff_eq]
          intro hy
          exact absurd (hxv ▸ hy ▸ hlt) (lt_irrefl _)
        simp [List.filter_cons, hyv, ih, hx]
      · simp [List.filter_cons, ih, hx]

theorem filter_insertionSort_score (v : ℚ) :
    ∀ l : List (String × ℚ),
      (List.insertionSort scoreGE l).filter (fun kv => kv.2 == v)
        = l.filter (fun kv => kv.2 == v) := by
  intro l
  induction l with
  | nil => rfl
  | cons x xs ih =>
    rw [List.insertionSort, filter_orderedInsert_score]
    by_cases hx : x.2 == v <;> simp [List.filter_cons, hx, ih]

/-- C7: for every metric map, the leaderboard is the three-entry prefix (all
entries when fewer exist) of the stable descending sort of the input:
values descend, equal values keep the input's insertion order (the person
name is never consulted), and the spec's concrete tie-breaking example
resolves to `[B, C, A]`. -/
theorem claimC7_top_performers (data : List (String × ℚ)) :
    ∃ ranked : List (String × ℚ),
      ranked.Perm data
      ∧ List.Sorted scoreGE ranked
      ∧ (∀ v : ℚ, ranked.filter (fun kv => kv.2 == v) = data.filter (fun kv => kv.2 == v))
      ∧ getTopPerformers data = ranked.take 3
      ∧ (getTopPerformers data).length = min 3 data.length
      ∧ (data.length ≤ 3 → getTopPerformers data = ranked)
      ∧ getTopPerformers [("A", 5), ("B", 9), ("C", 9), ("D", 1)]
          = [("B", 9), ("C", 9), ("A", 5)] := by
  refine ⟨List.insertionSort scoreGE data, List.perm_insertionSort scoreGE data,
    List.sorted_insertionSort scoreGE data, fun v => filter_insertionSort_score v data,
    rfl, ?_, ?_, by decide⟩
  · rw [getTopPerformers, List.length_take, List.length_insertionSort]
  · intro hle
    rw [getTopPerformers]
    exact List.take_of_length_le (by rw [List.length_insertionSort]; exact hle)

/-- C7 witness: the leaderboard characterisation applied to the spec's
example scores. -/
theorem claimC7_witness :
    ∃ ranked : List (String × ℚ),
      ranked.Perm [("A", 5), ("B", 9), ("C", 9), ("D", 1)]
      ∧ List.Sorted scoreGE ranked
      ∧ (∀ v : ℚ, ranked.filter (fun kv => kv.2 == v)
          = List.filter (fun kv => kv.2 == v) [("A", 5), ("B", 9), ("C", 9), ("D", 1)])
      ∧ getTopPerformers [("A", 5), ("B", 9), ("C", 9), ("D", 1)] = ranked.take 3
      ∧ (getTopPerformers [("A", 5), ("B", 9), ("C", 9), ("D", 1)]).length
          = min 3 ([("A", 5), ("B", 9), ("C", 9), ("D", 1)] : List (String × ℚ)).length
      ∧ (([("A", 5), ("B", 9), ("C", 9), ("D", 1)] : List (String × ℚ)).length ≤ 3 →
          getTopPerformers [("A", 5), ("B", 9), ("C", 9), ("D", 1)] = ranked)
      ∧ getTopPerformers [("A", 5), ("B", 9), ("C", 9), ("D", 1)]
          = [("B", 9), ("C", 9), ("A", 5)] :=
  claimC7_top_performers [("A", 5), ("B", 9), ("C", 9), ("D", 1)]

/-! ### Claim C6 -/

theorem jsCeilDiv_msPerIteration (a : Int) :
    jsCeilDiv a msPerIteration = ⌈(a : ℚ) / (86400000 : ℚ) / 14⌉ := by
  have h1 : (⌈(a : ℚ) / (86400000 : ℚ) / 14⌉ : ℤ) = ⌈(a : ℚ) / ((1209600000 : ℕ) : ℚ)⌉ := by
    rw [div_div]
    norm_num
  have h2 : (⌈(a : ℚ) / ((1209600000 : ℕ) : ℚ)⌉ : ℤ)
      = -⌊-((a : ℚ) / ((1209600000 : ℕ) : ℚ))⌋ := by
    rw [Int.floor_neg, neg_neg]
  have h3 : -((a : ℚ) / ((1209600000 : ℕ) : ℚ))
      = (((-a : ℤ) : ℚ) / ((1209600000 : ℕ) : ℚ)) := by
    push_cast
    ring
  have h4 : ⌊(((-a : ℤ) : ℚ) / ((1209600000 : ℕ) : ℚ))⌋ = (-a) / ((1209600000 : ℕ) : ℤ) :=
    Rat.floor_intCast_div_natCast (-a) 1209600000
  have h5 : jsCeilDiv a msPerIteration = -((-a) / (1209600000 : ℤ)) := by
    have hb : (0 : ℤ) ≤ 1209600000 := by norm_num
    have hm : msPerIteration = (1209600000 : ℤ) := by norm_num [msPerIteration]
    rw [jsCeilDiv, hm, Int.fdiv_eq_ediv _ hb]
  rw [h5, h1, h2, h3, h4]
  norm_cast

theorem pushAgeGroup_length (g : AgeGroup) (lbl : String) (ags : AgeGroups) :
    (pushAgeGroup g lbl ags).recent.length + (pushAgeGroup g lbl ags).moderate.length
      + (pushAgeGroup g lbl ags).old.length + (pushAgeGroup g lbl ags).critical.length
      = ags.recent.length + ags.moderate.length + ags.old.length + ags.critical.length + 1 := by
  cases g <;> simp [pushAgeGroup] <;> omega

theorem tierList_pushAgeGroup_self (g : AgeGroup) (lbl : String) (ags : AgeGroups) :
    tierList g (pushAgeGroup g lbl ags) = tierList g ags ++ [lbl] := by
  cases g <;> rfl

theorem tierList_pushAgeGroup_mono (g g' : AgeGroup) (lbl x : String) (ags : AgeGroups)
    (hx : x ∈ tierList g' ags) : x ∈ tierList g' (pushAgeGroup g lbl ags) := by
  cases g <;> cases g' <;> simp [tierList, pushAgeGroup] at hx ⊢ <;> simp [hx]

theorem spillRecord_inv (sprint : Sprint) (issue : Issue) (person : String) (startMs : Int)
    (m : List (String × SpillBucket))
    (hm : ∀ q b, (q, b) ∈ m →
      b.totalSprintWeeks = (b.issues.map (fun r => r.sprintAge * 2)).sum
      ∧ b.ageGroups.recent.length + b.ageGroups.moderate.length
          + b.ageGroups.old.length + b.ageGroups.critical.length = b.issues.length
      ∧ (∀ r ∈ b.issues, r.sprintAge = sprintAgeOf sprint.startDate r.startDate)
      ∧ (∀ r ∈ b.issues,
          (r.key ++ " (" ++ toString r.sprintAge ++ " sprints)")
            ∈ tierList (getAgeGroupLabel r.sprintAge) b.ageGroups)) :
    ∀ q b, (q, b) ∈ spillRecord sprint issue person startMs m →
      b.totalSprintWeeks = (b.issues.map (fun r => r.sprintAge * 2)).sum
      ∧ b.ageGroups.recent.length + b.ageGroups.moderate.length
          + b.ageGroups.old.length + b.ageGroups.critical.length = b.issues.length
      ∧ (∀ r ∈ b.issues, r.sprintAge = sprintAgeOf sprint.startDate r.startDate)
      ∧ (∀ r ∈ b.issues,
          (r.key ++ " (" ++ toString r.sprintAge ++ " sprints)")
            ∈ tierList (getAgeGroupLabel r.sprintAge) b.ageGroups) := by
  intro q b hb
  rw [spillRecord] at hb
  refine upsert_forall ?_ ?_ m hm q b hb
  · refine ⟨by simp [emptySpillBucket], ?_, ?_, ?_⟩
    · rw [pushAgeGroup_length]
      simp [emptySpillBucket]
    · intro r hr
      simp only [emptySpillBucket, List.nil_append, List.mem_singleton] at hr
      subst hr
      rfl
    · intro r hr
      simp only [emptySpillBucket, List.nil_append, List.mem_singleton] at hr
      subst hr
      rw [tierList_pushAgeGroup_self]
      simp [emptySpillBucket, tierList]
  · rintro v ⟨hw, hl, ha, ht⟩
    refine ⟨?_, ?_, ?_, ?_⟩
    · simp only [List.map_append, List.sum_append, List.map_cons, List.sum_cons,
        List.map_nil, List.sum_nil]
      omega
    · rw [pushAgeGroup_length, List.length_append]
      simp [hl]
    · intro r hr
      rcases List.mem_append.mp hr with h | h
      · exact ha r h
      · rw [List.mem_singleton] at h
        subst h
        rfl
    · intro r hr
      rcases List.mem_append.mp hr with h | h
      · exact tierList_pushAgeGroup_mono _ _ _ _ _ (ht r h)
      · rw [List.mem_singleton] at h
        subst h
        rw [tierList_pushAgeGroup_self]
        exact List.mem_append_right _ (List.mem_singleton_self _)

theorem spilloverStep_shape (sprint : Sprint) (issue : Issue) (m : List (String × SpillBucket)) :
    spilloverStep sprint issue m = m ∨
    ∃ person startMs, spilloverStep sprint issue m = spillRecord sprint issue person startMs m := by
  rw [spilloverStep]
  cases issue.histories with
  | none => exact Or.inl rfl
  | some hs =>
    simp only
    split
    all_goals try split
    all_goals try split
    all_goals try split
    all_goals first
      | exact Or.inl rfl
      | exact Or.inr ⟨_, _, rfl⟩

theorem spilloverStep_inv (sprint : Sprint) (issue : Issue) (m : List (String × SpillBucket))
    (hm : ∀ q b, (q, b) ∈ m →
      b.totalSprintWeeks = (b.issues.map (fun r => r.sprintAge * 2)).sum
      ∧ b.ageGroups.recent.length + b.ageGroups.moderate.length
          + b.ageGroups.old.length + b.ageGroups.critical.length = b.issues.length
      ∧ (∀ r ∈ b.issues, r.sprintAge = sprintAgeOf sprint.startDate r.startDate)
      ∧ (∀ r ∈ b.issues,
          (r.key ++ " (" ++ toString r.sprintAge ++ " sprints)")
            ∈ tierList (getAgeGroupLabel r.sprintAge) b.ageGroups)) :
    ∀ q b, (q, b) ∈ spilloverStep sprint issue m →
      b.totalSprintWeeks = (b.issues.map (fun r => r.sprintAge * 2)).sum
      ∧ b.ageGroups.recent.length + b.ageGroups.moderate.length
          + b.ageGroups.old.length + b.ageGroups.critical.length = b.issues.length
      ∧ (∀ r ∈ b.issues, r.sprintAge = sprintAgeOf sprint.startDate r.startDate)
      ∧ (∀ r ∈ b.issues,
          (r.key ++ " (" ++ toString r.sprintAge ++ " sprints)")
            ∈ tierList (getAgeGroupLabel r.sprintAge) b.ageGroups) := by
  intro q b hb
  rcases spilloverStep_shape sprint issue m with h | ⟨person, startMs, h⟩
  · rw [h] at hb
    exact hm q b hb
  · rw [h] at hb
    exact spillRecord_inv sprint issue person startMs m hm q b hb

theorem foldl_spillover_inv (sprint : Sprint) :
    ∀ (issues : List Issue) (st : SprintState),
      (∀ q b, (q, b) ∈ st.spilloverStats →
        b.totalSprintWeeks = (b.issues.map (fun r => r.sprintAge * 2)).sum
        ∧ b.ageGroups.recent.length + b.ageGroups.moderate.length
            + b.ageGroups.old.length + b.ageGroups.critical.length = b.issues.length
        ∧ (∀ r ∈ b.issues, r.sprintAge = sprintAgeOf sprint.startDate r.startDate)
        ∧ (∀ r ∈ b.issues,
            (r.key ++ " (" ++ toString r.sprintAge ++ " sprints)")
              ∈ tierList (getAgeGroupLabel r.sprintAge) b.ageGroups)) →
      ∀ q b, (q, b) ∈ (issues.foldl (stepIssue sprint) st).spilloverStats →
        b.totalSprintWeeks = (b.issues.map (fun r => r.sprintAge * 2)).sum
        ∧ b.ageGroups.recent.length + b.ageGroups.moderate.length
            + b.ageGroups.old.length + b.ageGroups.critical.length = b.issues.length
        ∧ (∀ r ∈ b.issues, r.sprintAge = sprintAgeOf sprint.startDate r.startDate)
        ∧ (∀ r ∈ b.issues,
            (r.key ++ " (" ++ toString r.sprintAge ++ " sprints)")
              ∈ tierList (getAgeGroupLabel r.sprintAge) b.ageGroups) := by
  intro issues
  induction issues with
  | nil => intro st h; exact h
  | cons i rest ih =>
    intro st h
    refine ih (stepIssue sprint st i) ?_
    rw [stepIssue_spilloverStats]
    by_cases hd : i.status = "Done"
    · rw [if_pos hd]
      exact h
    · rw [if_neg hd]
      exact spilloverStep_inv sprint i st.spilloverStats h

/-- C6: every recorded spillover bucket satisfies the claim's arithmetic:
each recorded item's age equals the ceiling of the day-difference to the
sprint start divided by 14; the cumulative staleness is the sum of
(age times 2) over the person's items; each item's labelled key sits in the
tier list `getAgeGroupLabel` assigns to its age, and the four tier lists
together hold exactly one entry per recorded item; and the tier classifier
maps ages at most 2 to recent, at most 4 to moderate, at most 6 to old and
all larger ages to critical. -/
theorem claimC6_spillover (sprint : Sprint) (noEst : List (String × Option String))
    (issues : List Issue) (q : String) (b : SpillBucket)
    (hb : (q, b) ∈ (processSprint sprint noEst issues).spilloverStats) :
    b.totalSprintWeeks = (b.issues.map (fun r => r.sprintAge * 2)).sum
    ∧ b.ageGroups.recent.length + b.ageGroups.moderate.length
        + b.ageGroups.old.length + b.ageGroups.critical.length = b.issues.length
    ∧ (∀ r ∈ b.issues,
        r.sprintAge = ⌈((sprint.startDate - r.startDate : ℤ) : ℚ) / (86400000 : ℚ) / 14⌉)
    ∧ (∀ r ∈ b.issues,
        (r.key ++ " (" ++ toString r.sprintAge ++ " sprints)")
          ∈ tierList (getAgeGroupLabel r.sprintAge) b.ageGroups)
    ∧ (∀ a : ℤ, (a ≤ 2 → getAgeGroupLabel a = AgeGroup.recent)
        ∧ (2 < a → a ≤ 4 → getAgeGroupLabel a = AgeGroup.moderate)
        ∧ (4 < a → a ≤ 6 → getAgeGroupLabel a = AgeGroup.old)
        ∧ (6 < a → getAgeGroupLabel a = AgeGroup.critical)) := by
  have hinv := by
    refine foldl_spillover_inv sprint issues
      { completedIssues := 0, completionStats := [], reviewerStats := [], shipperStats := []
        spilloverStats := [], timeLogged := [], missingEstimates := noEst } ?_ q b ?_
    · intro q b hb
      simp at hb
    · exact hb
  obtain ⟨hw, hl, ha, ht⟩ := hinv
  refine ⟨hw, hl, ?_, ht, ?_⟩
  · intro r hr
    rw [ha r hr, sprintAgeOf, jsCeilDiv_msPerIteration]
  · intro a
    refine ⟨?_, ?_, ?_, ?_⟩
    · intro h1
      rw [getAgeGroupLabel, if_pos h1]
    · intro h1 h2
      rw [getAgeGroupLabel, if_neg (by omega), if_pos h2]
    · intro h1 h2
      rw [getAgeGroupLabel, if_neg (by omega), if_neg (by omega), if_pos h2]
    · intro h1
      rw [getAgeGroupLabel, if_neg (by omega), if_neg (by omega), if_neg (by omega)]

/-- C6 witness: the spillover characterisation applied to an issue started
three iterations before the sprint. -/
theorem claimC6_witness :
    (("Alice", ({ count := 1, totalSprintWeeks := 6,
                  issues := [⟨"K6", 0, "S1", 3⟩],
                  ageGroups := ⟨[], ["K6 (3 sprints)"], [], []⟩ } : SpillBucket))
        ∈ (processSprint sprintC6 [] [issueC6]).spilloverStats)
    ∧ (6 : ℤ) = ([(⟨"K6", 0, "S1", 3⟩ : SpillIssue)].map (fun r => r.sprintAge * 2)).sum :=
  ⟨by decide,
   (claimC6_spillover sprintC6 [] [issueC6] "Alice"
      { count := 1, totalSprintWeeks := 6,
        issues := [⟨"K6", 0, "S1", 3⟩],
        ageGroups := ⟨[], ["K6 (3 sprints)"], [], []⟩ } (by decide)).1⟩

/-! ### Claim C2 -/

theorem firstItemMatch_mem {p : FieldChange → Bool} :
    ∀ {l : List Changelog} {a : String} {it : FieldChange},
      firstItemMatch p l = some (a, it) →
      ∃ hh ∈ l, hh.author = a ∧ it ∈ hh.items ∧ p it = true := by
  intro l
  induction l with
  | nil =>
    intro a it h
    simp [firstItemMatch] at h
  | cons h rest ih =>
    intro a it hfim
    rw [firstItemMatch] at hfim
    cases hfind : h.items.find? p with
    | some it' =>
      rw [hfind] at hfim
      have heq := Option.some.inj hfim
      have ha : h.author = a := congrArg Prod.fst heq
      have hit : it' = it := congrArg Prod.snd heq
      exact ⟨h, List.mem_cons_self _ _, ha, hit ▸ List.mem_of_find?_eq_some hfind,
        hit ▸ List.find?_some hfind⟩
    | none =>
      rw [hfind] at hfim
      obtain ⟨hh, hmem, h1, h2, h3⟩ := ih hfim
      exact ⟨hh, List.mem_cons_of_mem _ hmem, h1, h2, h3⟩

theorem firstItemMatch_none {p : FieldChange → Bool} :
    ∀ {l : List Changelog}, firstItemMatch p l = none →
      ∀ h ∈ l, ∀ it ∈ h.items, p it = false := by
  intro l
  induction l with
  | nil =>
    intro _ h hmem
    simp at hmem
  | cons h rest ih =>
    intro hfim h' hmem it hit
    rw [firstItemMatch] at hfim
    cases hfind : h.items.find? p with
    | some it' => rw [hfind] at hfim; exact absurd hfim (by simp)
    | none =>
      rw [hfind] at hfim
      rcases List.mem_cons.mp hmem with rfl | hmem'
      · have := List.find?_eq_none.mp hfind it hit
        exact Bool.eq_false_iff.mpr this
      · exact ih hfim h' hmem' it hit

theorem starterScanItems_find_some (author : String) :
    ∀ (its : List FieldChange) (it : FieldChange) (acc : StarterScan),
      its.find? primStarter = some it → acc.starter = "" →
      ∃ fm, starterScanItems author its acc = ⟨author, it.fromString == "To Do", fm⟩ := by
  intro its
  induction its with
  | nil =>
    intro it acc hfind
    simp at hfind
  | cons x rest ih =>
    intro it acc hfind hacc
    obtain ⟨s, mv, fm⟩ := acc
    simp only at hacc
    subst hacc
    by_cases hx : primStarter x = true
    · rw [List.find?_cons_of_pos _ hx] at hfind
      have hxit : x = it := Option.some.inj hfind
      subst hxit
      refine ⟨fm, ?_⟩
      rw [starterScanItems, if_pos (by simp [hx])]
    · rw [List.find?_cons_of_neg _ hx] at hfind
      rw [starterScanItems, if_neg (by simp [hx])]
      by_cases hfb : (fbStarter x && (fm == "")) = true
      · rw [if_pos hfb]
        exact ih it ⟨"", mv, author⟩ hfind rfl
      · rw [if_neg hfb]
        exact ih it ⟨"", mv, fm⟩ hfind rfl

theorem starterScanItems_find_none (author : String) :
    ∀ (its : List FieldChange) (acc : StarterScan),
      its.find? primStarter = none →
      starterScanItems author its acc
        = ⟨acc.starter, acc.movedDirectlyToInProgress,
           if acc.firstMoverFromToDo = "" ∧ its.any fbStarter then author
           else acc.firstMoverFromToDo⟩ := by
  intro its
  induction its with
  | nil =>
    intro acc _
    obtain ⟨s, mv, fm⟩ := acc
    simp [starterScanItems]
  | cons x rest ih =>
    intro acc hfind
    obtain ⟨s, mv, fm⟩ := acc
    have hall := List.find?_eq_none.mp hfind
    have hx : ¬ primStarter x = true := hall x (List.mem_cons_self _ _)
    have hrest : rest.find? primStarter = none :=
      List.find?_eq_none.mpr (fun y hy => hall y (List.mem_cons_of_mem _ hy))
    rw [starterScanItems, if_neg (by simp [Bool.eq_false_iff.mpr hx])]
    by_cases hfb : (fbStarter x && (fm == "")) = true
    · rw [if_pos hfb]
      rw [ih ⟨s, mv, author⟩ hrest]
      have hfbx : fbStarter x = true := (Bool.and_eq_true _ _ |>.mp hfb).1
      have hfm : fm = "" := by
        have := (Bool.and_eq_true _ _ |>.mp hfb).2
        simpa using this
      simp only [List.any_cons, hfbx, Bool.true_or]
      by_cases hauth0 : author = ""
      · simp [hauth0, hfm]
      · simp [hauth0, hfm]
    · rw [if_neg hfb]
      rw [ih ⟨s, mv, fm⟩ hrest]
      simp only [List.any_cons]
      by_cases hfbx : fbStarter x = true
      · have hfm : ¬ fm = "" := by
          intro hfm0
          exact hfb (by simp [hfbx, hfm0])
        simp [hfm]
      · have : fbStarter x = false := Bool.eq_false_iff.mpr hfbx
        simp [this]

theorem starterScanHistories_char :
    ∀ (l : List Changelog), (∀ h ∈ l, h.author ≠ "") →
      ∀ (acc : StarterScan), acc.starter = "" →
      (∀ a it, firstItemMatch primStarter l = some (a, it) →
        ∃ fm, starterScanHistories l acc = ⟨a, it.fromString == "To Do", fm⟩)
      ∧ (firstItemMatch primStarter l = none →
        starterScanHistories l acc
          = ⟨acc.starter, acc.movedDirectlyToInProgress,
             if acc.firstMoverFromToDo = "" then fmOfStarter l
             else acc.firstMoverFromToDo⟩) := by
  intro l
  induction l with
  | nil =>
    intro _ acc hacc
    obtain ⟨s, mv, fm⟩ := acc
    simp only at hacc
    subst hacc
    constructor
    · intro a it hfim
      simp [firstItemMatch] at hfim
    · intro _
      rw [starterScanHistories]
      by_cases hfm : fm = "" <;> simp [hfm, fmOfStarter, firstItemMatch]
  | cons h rest ih =>
    intro hauth acc hacc
    obtain ⟨s, mv, fm⟩ := acc
    simp only at hacc
    subst hacc
    have hhauth : h.author ≠ "" := hauth h (List.mem_cons_self _ _)
    have hrauth : ∀ h' ∈ rest, h'.author ≠ "" :=
      fun h' hm => hauth h' (List.mem_cons_of_mem _ hm)
    constructor
    · intro a it hfim
      rw [firstItemMatch] at hfim
      cases hfind : h.items.find? primStarter with
      | some it' =>
        rw [hfind] at hfim
        have ha : h.author = a := congrArg Prod.fst (Option.some.inj hfim)
        have hit : it' = it := congrArg Prod.snd (Option.some.inj hfim)
        obtain ⟨fm', hscan⟩ :=
          starterScanItems_find_some h.author h.items it' ⟨"", mv, fm⟩ hfind rfl
        refine ⟨fm', ?_⟩
        rw [starterScanHistories]
        simp only [hscan]
        rw [if_neg (by simp [hhauth]), ha, hit]
      | none =>
        rw [hfind] at hfim
        have hscan := starterScanItems_find_none h.author h.items ⟨"", mv, fm⟩ hfind
        rw [starterScanHistories]
        simp only [hscan]
        rw [if_pos (by simp)]
        exact (ih hrauth _ rfl).1 a it hfim
    · intro hfim
      rw [firstItemMatch] at hfim
      cases hfind : h.items.find? primStarter with
      | some it' =>
        rw [hfind] at hfim
        exact absurd hfim (by simp)
      | none =>
        rw [hfind] at hfim
        have hscan := starterScanItems_find_none h.author h.items ⟨"", mv, fm⟩ hfind
        rw [starterScanHistories]
        simp only [hscan]
        rw [if_pos (by simp)]
        rw [(ih hrauth _ rfl).2 hfim]
        have hfmOf : fmOfStarter (h :: rest)
            = if h.items.any fbStarter then h.author else fmOfStarter rest := by
          rw [fmOfStarter, firstItemMatch]
          cases hfb : h.items.find? fbStarter with
          | some itb =>
            have hany : h.items.any fbStarter = true :=
              List.any_eq_true.mpr ⟨itb, List.mem_of_find?_eq_some hfb, List.find?_some hfb⟩
            simp [hany]
          | none =>
            have hany : h.items.any fbStarter = false := by
              rw [Bool.eq_false_iff, Ne, List.any_eq_true]
              rintro ⟨itb, hmem, hp⟩
              exact absurd hp (List.find?_eq_none.mp hfb itb hmem)
            simp [hany, fmOfStarter]
        rw [hfmOf]
        by_cases hfm : fm = ""
        · by_cases hany : h.items.any fbStarter = true
          · simp [hfm, hany, hhauth]
          · have hany' : h.items.any fbStarter = false := Bool.eq_false_iff.mpr hany
            simp [hfm, hany']
        · simp [hfm]

/-- C2 as stated is false: the code's primary pass accepts the first status
change into "In Progress" from any source (certainty records whether that
particular change came from "To Do"), so on a history whose first move to
"In Progress" comes from "Blocked" by Alice, followed by a "To Do" to
"In Progress" move by Bob, the code attributes (Alice, uncertain) while the
claim demands (Bob, certain). -/
theorem claimC2_counterexample :
    starterResult hsC2 = ("Alice", false)
    ∧ starterResultPerClaim hsC2 = ("Bob", true)
    ∧ starterResult hsC2 ≠ starterResultPerClaim hsC2 := by
  decide

/-- C2 (amended): for actors with nonempty display names, the Starter
classifier attributes the item to the actor of the first status change with
to "In Progress" from any source, with certainty true exactly when that
change's source was "To Do"; only when no status change into "In Progress"
exists anywhere in the sorted history does it fall back to the actor of the
first status change from "To Do" (certainty false), and to
("Unknown", false) when that is also absent. -/
theorem claimC2_amended (hs : List Changelog) (hauth : ∀ h ∈ hs, h.author ≠ "") :
    starterResult hs
      = (match firstItemMatch primStarter (sortHistories hs) with
        | some (a, it) => (a, it.fromString == "To Do")
        | none =>
          match firstItemMatch fbStarter (sortHistories hs) with
          | some (a, _) => (a, false)
          | none => ("Unknown", false)) := by
  have hauth' : ∀ h ∈ sortHistories hs, h.author ≠ "" := fun h hmem =>
    hauth h ((List.mem_insertionSort createdLE).mp hmem)
  rw [starterResult]
  cases hfim : firstItemMatch primStarter (sortHistories hs) with
  | some ait =>
    obtain ⟨a, it⟩ := ait
    obtain ⟨fm, hscan⟩ :=
      (starterScanHistories_char (sortHistories hs) hauth' ⟨"", false, ""⟩ rfl).1 a it hfim
    have ha : a ≠ "" := by
      obtain ⟨hh, hmem, hha, _, _⟩ := firstItemMatch_mem hfim
      exact hha ▸ hauth' hh hmem
    simp only [hscan]
    simp [ha]
  | none =>
    have hscan := (starterScanHistories_char (sortHistories hs) hauth' ⟨"", false, ""⟩ rfl).2 hfim
    simp only [hscan]
    cases hfb : firstItemMatch fbStarter (sortHistories hs) with
    | some bit =>
      obtain ⟨b, it'⟩ := bit
      have hb : b ≠ "" := by
        obtain ⟨hh, hmem, hhb, _, _⟩ := firstItemMatch_mem hfb
        exact hhb ▸ hauth' hh hmem
      simp [fmOfStarter, hfb, hb]
    | none =>
      simp [fmOfStarter, hfb]

/-- C2 witness: the amended characterisation applied to the counterexample
history, whose authors are nonempty. -/
theorem claimC2_witness :
    (∀ h ∈ hsC2, h.author ≠ "")
    ∧ starterResult hsC2
      = (match firstItemMatch primStarter (sortHistories hsC2) with
        | some (a, it) => (a, it.fromString == "To Do")
        | none =>
          match firstItemMatch fbStarter (sortHistories hsC2) with
          | some (a, _) => (a, false)
          | none => ("Unknown", false)) :=
  ⟨by decide, claimC2_amended hsC2 (by decide)⟩

/-! ### Claim C3 -/

theorem shipperScanItems_find_some (author : String) :
    ∀ (its : List FieldChange) (it : FieldChange) (acc : ShipperScan),
      its.find? primShipper = some it → acc.shipper = "" →
      ∃ fm, shipperScanItems author its acc = ⟨author, true, fm⟩ := by
  intro its
  induction its with
  | nil =>
    intro it acc hfind
    simp at hfind
  | cons x rest ih =>
    intro it acc hfind hacc
    obtain ⟨s, mv, fm⟩ := acc
    simp only at hacc
    subst hacc
    rw [shipperScanItems]
    by_cases hx : primShipper x = true
    · have hparts := hx
      rw [primShipper, Bool.and_eq_true, Bool.and_eq_true] at hparts
      obtain ⟨⟨hf, hfrom⟩, hto⟩ := hparts
      by_cases htr : (x.fromString == "Testing" && (fm == "")) = true
      · have hfm : fm = "" := by
          have h2 := ((Bool.and_eq_true _ _).mp htr).2
          simpa using h2
        exact ⟨author, by simp [hf, hfrom, hto, hfm]⟩
      · have hfm : ¬ fm = "" := fun h0 => htr (by simp [hfrom, h0])
        exact ⟨fm, by simp [hf, hfrom, hto, hfm]⟩
    · rw [List.find?_cons_of_neg _ hx] at hfind
      by_cases hf : (x.field == "status") = true
      · have hnb : (x.fromString == "Testing" && x.toString == "UAT Ready") = false := by
          rw [Bool.eq_false_iff]
          intro hboth
          rw [Bool.and_eq_true] at hboth
          exact hx (by
            rw [primShipper, Bool.and_eq_true, Bool.and_eq_true]
            exact ⟨⟨hf, hboth.1⟩, hboth.2⟩)
        by_cases htr : (x.fromString == "Testing" && (fm == "")) = true
        · obtain ⟨fm', hres⟩ := ih it ⟨"", mv, author⟩ hfind rfl
          exact ⟨fm', by simp [hf, htr, hnb, hres]⟩
        · obtain ⟨fm', hres⟩ := ih it ⟨"", mv, fm⟩ hfind rfl
          exact ⟨fm', by simp [hf, htr, hnb, hres]⟩
      · have hff : (x.field == "status") = false := Bool.eq_false_iff.mpr hf
        obtain ⟨fm', hres⟩ := ih it ⟨"", mv, fm⟩ hfind rfl
        exact ⟨fm', by simp [hff, hres]⟩

theorem shipperScanItems_find_none (author : String) :
    ∀ (its : List FieldChange) (acc : ShipperScan),
      its.find? primShipper = none →
      shipperScanItems author its acc
        = ⟨acc.shipper, acc.movedDirectlyToUATReady,
           if acc.firstMoverFromTesting = "" ∧ its.any fbShipper then author
           else acc.firstMoverFromTesting⟩ := by
  intro its
  induction its with
  | nil =>
    intro acc _
    obtain ⟨s, mv, fm⟩ := acc
    simp [shipperScanItems]
  | cons x rest ih =>
    intro acc hfind
    obtain ⟨s, mv, fm⟩ := acc
    have hall := List.find?_eq_none.mp hfind
    have hx : ¬ primShipper x = true := hall x (List.mem_cons_self _ _)
    have hrest : rest.find? primShipper = none :=
      List.find?_eq_none.mpr (fun y hy => hall y (List.mem_cons_of_mem _ hy))
    rw [shipperScanItems]
    by_cases hf : (x.field == "status") = true
    · have hnb : (x.fromString == "Testing" && x.toString == "UAT Ready") = false := by
        rw [Bool.eq_false_iff]
        intro hboth
        rw [Bool.and_eq_true] at hboth
        exact hx (by
          rw [primShipper, Bool.and_eq_true, Bool.and_eq_true]
          exact ⟨⟨hf, hboth.1⟩, hboth.2⟩)
      have hfbx : fbShipper x = (x.fromString == "Testing") := by
        rw [fbShipper, hf, Bool.true_and]
      by_cases htr : (x.fromString == "Testing" && (fm == "")) = true
      · have hfromx : (x.fromString == "Testing") = true := ((Bool.and_eq_true _ _).mp htr).1
        have hfm : fm = "" := by
          have h2 := ((Bool.and_eq_true _ _).mp htr).2
          simpa using h2
        have hto : (x.toString == "UAT Ready") = false := by
          cases hbto : (x.toString == "UAT Ready") with
          | false => rfl
          | true => rw [hfromx, hbto] at hnb; simp at hnb
        simp [hf, hto, ih ⟨s, mv, author⟩ hrest, List.any_cons, hfbx, hfromx, hfm]
      · by_cases hfromx : (x.fromString == "Testing") = true
        · have hfm : ¬ fm = "" := by
            intro hfm0
            exact htr (by simp [hfromx, hfm0])
          have hto : (x.toString == "UAT Ready") = false := by
            cases hbto : (x.toString == "UAT Ready") with
            | false => rfl
            | true => rw [hfromx, hbto] at hnb; simp at hnb
          simp [hf, hto, ih ⟨s, mv, fm⟩ hrest, List.any_cons, hfbx, hfromx, hfm]
        · have hfx : (x.fromString == "Testing") = false := Bool.eq_false_iff.mpr hfromx
          simp [hf, htr, hnb, ih ⟨s, mv, fm⟩ hrest, List.any_cons, hfbx, hfx]
    · have hff : (x.field == "status") = false := Bool.eq_false_iff.mpr hf
      have hfbx : fbShipper x = false := by
        rw [fbShipper, hff, Bool.false_and]
      simp [hff, ih ⟨s, mv, fm⟩ hrest, List.any_cons, hfbx]

theorem shipperScanHistories_char :
    ∀ (l : List Changelog), (∀ h ∈ l, h.author ≠ "") →
      ∀ (acc : ShipperScan), acc.shipper = "" →
      (∀ a it, firstItemMatch primShipper l = some (a, it) →
        ∃ fm, shipperScanHistories l acc = ⟨a, true, fm⟩)
      ∧ (firstItemMatch primShipper l = none →
        shipperScanHistories l acc
          = ⟨acc.shipper, acc.movedDirectlyToUATReady,
             if acc.firstMoverFromTesting = "" then fmOfShipper l
             else acc.firstMoverFromTesting⟩) := by
  intro l
  induction l with
  | nil =>
    intro _ acc hacc
    obtain ⟨s, mv, fm⟩ := acc
    simp only at hacc
    subst hacc
    constructor
    · intro a it hfim
      simp [firstItemMatch] at hfim
    · intro _
      rw [shipperScanHistories]
      by_cases hfm : fm = "" <;> simp [hfm, fmOfShipper, firstItemMatch]
  | cons h rest ih =>
    intro hauth acc hacc
    obtain ⟨s, mv, fm⟩ := acc
    simp only at hacc
    subst hacc
    have hhauth : h.author ≠ "" := hauth h (List.mem_cons_self _ _)
    have hrauth : ∀ h' ∈ rest, h'.author ≠ "" :=
      fun h' hm => hauth h' (List.mem_cons_of_mem _ hm)
    constructor
    · intro a it hfim
      rw [firstItemMatch] at hfim
      cases hfind : h.items.find? primShipper with
      | some it' =>
        rw [hfind] at hfim
        have ha : h.author = a := congrArg Prod.fst (Option.some.inj hfim)
        obtain ⟨fm', hscan⟩ :=
          shipperScanItems_find_some h.author h.items it' ⟨"", mv, fm⟩ hfind rfl
        refine ⟨fm', ?_⟩
        rw [shipperScanHistories]
        simp only [hscan]
        rw [if_neg (by simp [hhauth]), ha]
      | none =>
        rw [hfind] at hfim
        have hscan := shipperScanItems_find_none h.author h.items ⟨"", mv, fm⟩ hfind
        rw [shipperScanHistories]
        simp only [hscan]
        rw [if_pos (by simp)]
        exact (ih hrauth _ rfl).1 a it hfim
    · intro hfim
      rw [firstItemMatch] at hfim
      cases hfind : h.items.find? primShipper with
      | some it' =>
        rw [hfind] at hfim
        exact absurd hfim (by simp)
      | none =>
        rw [hfind] at hfim
        have hscan := shipperScanItems_find_none h.author h.items ⟨"", mv, fm⟩ hfind
        rw [shipperScanHistories]
        simp only [hscan]
        rw [if_pos (by simp)]
        rw [(ih hrauth _ rfl).2 hfim]
        have hfmOf : fmOfShipper (h :: rest)
            = if h.items.any fbShipper then h.author else fmOfShipper rest := by
          rw [fmOfShipper, firstItemMatch]
          cases hfb : h.items.find? fbShipper with
          | some itb =>
            have hany : h.items.any fbShipper = true :=
              List.any_eq_true.mpr ⟨itb, List.mem_of_find?_eq_some hfb, List.find?_some hfb⟩
            simp [hany]
          | none =>
            have hany : h.items.any fbShipper = false := by
              rw [Bool.eq_false_iff, Ne, List.any_eq_true]
              rintro ⟨itb, hmem, hp⟩
              exact absurd hp (List.find?_eq_none.mp hfb itb hmem)
            simp [hany, fmOfShipper]
        rw [hfmOf]
        by_cases hfm : fm = ""
        · by_cases hany : h.items.any fbShipper = true
          · simp [hfm, hany, hhauth]
          · have hany' : h.items.any fbShipper = false := Bool.eq_false_iff.mpr hany
            simp [hfm, hany']
        · simp [hfm]

/-- C3 as stated is false: the shipper pass runs on every issue whose
changelog is present, with no applicability guard; an issue still in
"In Progress" that was once moved back from "Testing" receives a shipped
attribution although it is not completed and never reached "UAT Ready". -/
theorem claimC3_counterexample :
    shipperResult issueC3 = some ("Alice", false)
    ∧ issueC3.status ≠ "Done" ∧ issueC3.status ≠ "UAT Ready"
    ∧ (issueC3.histories.getD []).all
        (fun h => h.items.all (fun it => !(it.toString == "UAT Ready"))) = true := by
  decide

/-- C3 (amended): for actors with nonempty display names, the shipper pass
records an attribution precisely when the issue's changelog is present and
either some status change moves out of "Testing" (then that mover is
recorded, regardless of any applicability condition) or the issue currently
sits in "UAT Ready" or "Done" (then the sentinel "Unknown" is recorded);
only issues with no from-"Testing" change and a current status outside
those two are skipped. -/
theorem claimC3_amended (issue : Issue)
    (hauth : ∀ h ∈ issue.histories.getD [], h.author ≠ "") :
    (shipperResult issue).isSome = true
      ↔ ∃ hs, issue.histories = some hs
          ∧ ((∃ h ∈ hs, ∃ it ∈ h.items, it.field = "status" ∧ it.fromString = "Testing")
             ∨ issue.status = "UAT Ready" ∨ issue.status = "Done") := by
  cases hh : issue.histories with
  | none =>
    rw [shipperResult, hh]
    simp
  | some hs =>
    have hauth0 : ∀ h ∈ hs, h.author ≠ "" := by
      rw [hh] at hauth
      simpa using hauth
    have hauth' : ∀ h ∈ sortHistories hs, h.author ≠ "" := fun h hmem =>
      hauth0 h ((List.mem_insertionSort createdLE).mp hmem)
    rw [shipperResult, hh]
    cases hfim : firstItemMatch primShipper (sortHistories hs) with
    | some ait =>
      obtain ⟨a, it⟩ := ait
      obtain ⟨fm, hscan⟩ :=
        (shipperScanHistories_char (sortHistories hs) hauth' ⟨"", false, ""⟩ rfl).1 a it hfim
      obtain ⟨hh1, hmem, hha, hitmem, hpit⟩ := firstItemMatch_mem hfim
      have ha : a ≠ "" := hha ▸ hauth' hh1 hmem
      have hpit' := hpit
      rw [primShipper, Bool.and_eq_true, Bool.and_eq_true] at hpit'
      obtain ⟨⟨hfld, hfrom⟩, _⟩ := hpit'
      constructor
      · intro _
        exact ⟨hs, rfl, Or.inl ⟨hh1, (List.mem_insertionSort createdLE).mp hmem, it, hitmem,
          by simpa using hfld, by simpa using hfrom⟩⟩
      · intro _
        simp [hscan, ha]
    | none =>
      have hscan :=
        (shipperScanHistories_char (sortHistories hs) hauth' ⟨"", false, ""⟩ rfl).2 hfim
      cases hfb : firstItemMatch fbShipper (sortHistories hs) with
      | some bit =>
        obtain ⟨b, it'⟩ := bit
        obtain ⟨hh1, hmem, hhb, hitmem, hpit⟩ := firstItemMatch_mem hfb
        have hb : b ≠ "" := hhb ▸ hauth' hh1 hmem
        have hpit' := hpit
        rw [fbShipper, Bool.and_eq_true] at hpit'
        obtain ⟨hfld, hfrom⟩ := hpit'
        constructor
        · intro _
          exact ⟨hs, rfl, Or.inl ⟨hh1, (List.mem_insertionSort createdLE).mp hmem, it', hitmem,
            by simpa using hfld, by simpa using hfrom⟩⟩
        · intro _
          simp [hscan, fmOfShipper, hfb, hb]
      | none =>
        have hnofb := firstItemMatch_none hfb
        constructor
        · intro hsome
          by_cases hstat : issue.status = "UAT Ready" ∨ issue.status = "Done"
          · exact ⟨hs, rfl, Or.inr hstat⟩
          · exfalso
            simp [hscan, fmOfShipper, hfb, hstat] at hsome
        · rintro ⟨hs', heq, hdisj⟩
          have hhs : hs' = hs := (Option.some.inj heq).symm
          rcases hdisj with ⟨hh1, hmem, it, hitmem, hfld, hfrom⟩ | hstat
          · exfalso
            have hfb' : fbShipper it = true := by simp [fbShipper, hfld, hfrom]
            have hmem' : hh1 ∈ sortHistories hs :=
              (List.mem_insertionSort createdLE).mpr (hhs ▸ hmem)
            rw [hnofb hh1 hmem' it hitmem] at hfb'
            exact Bool.false_ne_true hfb'
          · simp [hscan, fmOfShipper, hfb, hstat]

/-- C3 witness: the amended characterisation applied to the counterexample
issue, which has a from-"Testing" change, so an attribution is recorded. -/
theorem claimC3_witness :
    (∀ h ∈ issueC3.histories.getD [], h.author ≠ "")
    ∧ ((shipperResult issueC3).isSome = true
      ↔ ∃ hs, issueC3.histories = some hs
          ∧ ((∃ h ∈ hs, ∃ it ∈ h.items, it.field = "status" ∧ it.fromString = "Testing")
             ∨ issueC3.status = "UAT Ready" ∨ issueC3.status = "Done")) :=
  ⟨by decide, claimC3_amended issueC3 (by decide)⟩
